import Mathlib

/-!
Verification of the annotation lifecycle and multi-page-selection engine of
the pdf-data-py application (package variant `pdf_data_viewer`).

The Python sources are shallowly embedded: dictionaries become structures
with `Option` fields marking key presence, the SQLite table becomes a list
of rows with an id counter, the Qt signal pipeline becomes a fold over the
emitted payloads, and the external `dateutil` parser is a function
parameter `parse` (with a small concrete instance for the formats exercised
by the concrete scenarios).
-/

namespace PdfData

/-- Calendar date produced by the external date parser. -/
structure Date where
  year : Nat
  month : Nat
  day : Nat
deriving DecidableEq, Repr

/-- Left-pad the decimal representation of a number with zeros, as
`strftime` does for `%Y`, `%m`, `%d`. -/
def padNum (w : Nat) (n : Nat) : String :=
  let s := toString n
  String.mk (List.replicate (w - s.length) '0') ++ s

/-- Rendering of a parsed date in the fixed `YYYY-MM-DD` output format
(`date_obj.strftime` in `date_utils.standardize_date`). -/
def fmtDate (d : Date) : String :=
  padNum 4 d.year ++ "-" ++ padNum 2 d.month ++ "-" ++ padNum 2 d.day

/-- Python whitespace stripped by `str.strip` (restricted to the ASCII
whitespace characters that occur in PDF text). -/
def isWs (c : Char) : Bool :=
  c = ' ' ∨ c = '\t' ∨ c = '\n' ∨ c = '\r'

/-- Strip leading and trailing whitespace from a character list
(`str.strip`). -/
def trimChars (l : List Char) : List Char :=
  ((l.dropWhile isWs).reverse.dropWhile isWs).reverse

/-- Character is not one of the bracket characters removed by
`.replace('[', '').replace(']', '')`. -/
def notBracket (c : Char) : Bool :=
  ¬(c = '[' ∨ c = ']')

/-- The cleaning applied to date text throughout the code base:
`text.replace('[', '').replace(']', '').strip()`. -/
def cleanChars (l : List Char) : List Char :=
  trimChars (l.filter notBracket)

/-- String-level wrapper of `cleanChars`. -/
def cleanText (s : String) : String :=
  String.mk (cleanChars s.data)

/-- The date-bearing fields (`config.DATE_FIELDS`). -/
def dateFields : List String :=
  ["rfq_date", "due_date", "requested_delivery_date"]

/-- Embedding of `date_utils.standardize_date`.  The permissive external
parser (`dateutil.parser.parse`) is a parameter; the function guards the
empty string, cleans brackets and whitespace, guards emptiness again, and
formats a successful parse as `YYYY-MM-DD`. -/
def standardizeDate (parse : String → Option Date) (s : String) : Option String :=
  if s = "" then none
  else
    let cleaned := cleanText s
    if cleaned = "" then none
    else (parse cleaned).map fmtDate

/-- Embedding of `AnnotationHandler.clean_text_for_date_field`. -/
def cleanTextForDateField (text : String) (field_type : String) : String :=
  if field_type ∈ dateFields then cleanText text else text

/-- Split a character list on the date separators `/` and `-`. -/
def splitFields : List Char → List (List Char)
  | [] => [[]]
  | c :: rest =>
    let r := splitFields rest
    if c = '/' ∨ c = '-' then [] :: r
    else
      match r with
      | [] => [[c]]
      | h :: t => (c :: h) :: t

/-- Decimal digit test on the codepoint. -/
def isDigitCh (c : Char) : Bool :=
  48 ≤ c.toNat ∧ c.toNat ≤ 57

/-- Parse a non-empty all-digit character list as a decimal number. -/
def digitsToNat? (l : List Char) : Option Nat :=
  if l ≠ [] ∧ l.all isDigitCh then
    some (l.foldl (fun acc c => acc * 10 + (c.toNat - 48)) 0)
  else none

/-- Modelled from the spec: the external `dateutil.parser.parse` is a
third-party collaborator, not part of this repository.  This instance
covers the year-first numeric formats exercised by the concrete scenarios
(`YYYY/MM/DD` and `YYYY-MM-DD`), validated the way the library accepts
them. -/
def parseSimple (s : String) : Option Date :=
  match splitFields s.data with
  | [y, m, d] =>
    match digitsToNat? y, digitsToNat? m, digitsToNat? d with
    | some yn, some mn, some dn =>
      if y.length = 4 ∧ 1 ≤ mn ∧ mn ≤ 12 ∧ 1 ≤ dn ∧ dn ≤ 31 then
        some ⟨yn, mn, dn⟩
      else none
    | _, _, _ => none
  | _ => none

/-- Embedding of `os.path.basename` (POSIX): the part of the path after
the last `/`. -/
def basenameChars (l : List Char) : List Char :=
  l.foldl (fun acc c => if c = '/' then [] else acc ++ [c]) []

/-- String-level wrapper of `basenameChars`. -/
def basename (s : String) : String :=
  String.mk (basenameChars s.data)

/-- Four-number bounding box in PDF user-space coordinates (`fitz.Rect`).
No arithmetic is ever performed on the coordinates by the embedded code,
so `Rat` is a faithful carrier for the Python floats. -/
structure Rect where
  x0 : Rat
  y0 : Rat
  x1 : Rat
  y1 : Rat
deriving DecidableEq, Repr

/-- The field-classification dialog result (`AnnotationFieldDialog.getFieldInfo`):
the `field_info` dictionary with keys `type`, `field`, `line_item_number`.
`MainWindow._process_date_field` may later add a `standardized_date` key,
modelled by the optional last component. -/
structure Classification where
  type_ : String
  field : String
  line_item_number : String
  standardized_date : Option String := none
deriving DecidableEq, Repr

/-- The in-memory annotation dictionary built by
`AnnotationHandler.add_annotation`.  `Option` fields model dictionary keys
that are only sometimes present. -/
structure Annot where
  id : Option Nat := none
  page : Nat
  rect : Rect
  text : String
  annot_id : Nat
  is_multipage : Bool := false
  multipage_position : Option Nat := none
  multipage_type : Option String := none
  group_id : Option String := none
  type_ : Option String := none
  field : Option String := none
  line_item_number : Option String := none
  standardized_date : Option String := none
deriving DecidableEq, Repr

instance : Inhabited Annot :=
  ⟨{ page := 0, rect := ⟨0, 0, 0, 0⟩, text := "", annot_id := 0 }⟩

/-- One row of the `annotations` SQLite table (`AnnotationDB.create_tables`).
`standardized_date = none` models SQL `NULL`, as does
`multipage_position = none`. -/
structure DbRow where
  id : Nat
  file_name : String
  page_num : Nat
  rect : Rect
  annotation_text : String
  annotation_type : String
  field_name : String
  line_item_number : String
  standardized_date : Option String
  is_multipage : Bool
  multipage_position : Option Nat
  multipage_type : String
  group_id : String
deriving DecidableEq, Repr

/-- The SQLite store: committed rows plus the next `AUTOINCREMENT` rowid
(SQLite assigns ids starting from 1). -/
structure DB where
  rows : List DbRow
  next_id : Nat
deriving DecidableEq, Repr

/-- A freshly created database (`create_tables` on a new file). -/
def DB.empty : DB := { rows := [], next_id := 1 }

/-- The `standardized_date` column value decided inside
`AnnotationDB.add_annotation`: a supplied truthy value wins, otherwise the
annotation's text is normalized — both only when the field is date-bearing
and the text non-empty. -/
def dbStdDate (parse : String → Option Date) (a : Annot) : Option String :=
  if a.field.getD "" ∈ dateFields ∧ a.text ≠ "" then
    match a.standardized_date with
    | some s => if s ≠ "" then some s else standardizeDate parse a.text
    | none => standardizeDate parse a.text
  else none

/-- The row inserted by `AnnotationDB.add_annotation`, with the dictionary
keys read through their `get` defaults. -/
def dbRowOf (parse : String → Option Date) (next_id : Nat)
    (file_path : String) (a : Annot) : DbRow :=
  { id := next_id
    file_name := basename file_path
    page_num := a.page
    rect := a.rect
    annotation_text := a.text
    annotation_type := a.type_.getD ""
    field_name := a.field.getD ""
    line_item_number := a.line_item_number.getD ""
    standardized_date := dbStdDate parse a
    is_multipage := a.is_multipage
    multipage_position := a.multipage_position
    multipage_type := a.multipage_type.getD ""
    group_id := a.group_id.getD "" }

/-- Embedding of `AnnotationDB.add_annotation`: basename the path, decide
the stored `standardized_date`, read the remaining keys with their
dictionary defaults, and append the row.  Returns the assigned id together
with the new store. -/
def dbAddAnnot (parse : String → Option Date) (db : DB) (file_path : String)
    (a : Annot) : Option Nat × DB :=
  (some db.next_id,
   { rows := db.rows ++ [dbRowOf parse db.next_id file_path a],
     next_id := db.next_id + 1 })

/-- The `ORDER BY group_id, multipage_position, id` sort key of
`get_annotations_for_file`.  SQLite compares `TEXT` byte-wise (which for
these strings coincides with the codepoint order used by `String`'s
linear order) and sorts `NULL` before all integers, which is the `⊥` of
`WithBot ℕ`. -/
def rowKey (r : DbRow) : Lex (String × Lex (WithBot Nat × Nat)) :=
  toLex (r.group_id, toLex ((r.multipage_position : WithBot Nat), r.id))

/-- Comparison relation realizing the query's `ORDER BY` clause. -/
def rowle (a b : DbRow) : Prop := rowKey a ≤ rowKey b

instance : DecidableRel rowle := fun a b =>
  inferInstanceAs (Decidable (rowKey a ≤ rowKey b))

instance : IsTotal DbRow rowle := ⟨fun a b => le_total (rowKey a) (rowKey b)⟩

instance : IsTrans DbRow rowle := ⟨fun _ _ _ h h' => le_trans h h'⟩

/-- Row-level part of `AnnotationDB.get_annotations_for_file`: the rows
whose `file_name` equals the basename of the query path, in `ORDER BY`
order. -/
def queryRows (db : DB) (file_path : String) : List DbRow :=
  List.insertionSort rowle
    (db.rows.filter (fun r => r.file_name == basename file_path))

/-- The dictionary rebuilt for each fetched row by
`get_annotations_for_file`: the multi-page keys are present only when
`is_multipage` is set, and `standardized_date` only when the column is not
`NULL`. -/
structure LoadedAnnot where
  id : Nat
  page : Nat
  rect : Rect
  text : String
  type_ : String
  field : String
  line_item_number : String
  file_name : String
  standardized_date : Option String
  is_multipage : Bool
  multipage_position : Option Nat
  multipage_type : Option String
  group_id : Option String
deriving DecidableEq, Repr

/-- Row-to-dictionary conversion inside `get_annotations_for_file`. -/
def loadRow (r : DbRow) : LoadedAnnot :=
  { id := r.id
    page := r.page_num
    rect := r.rect
    text := r.annotation_text
    type_ := r.annotation_type
    field := r.field_name
    line_item_number := r.line_item_number
    file_name := r.file_name
    standardized_date := r.standardized_date
    is_multipage := r.is_multipage
    multipage_position := if r.is_multipage then r.multipage_position else none
    multipage_type := if r.is_multipage then some r.multipage_type else none
    group_id := if r.is_multipage then some r.group_id else none }

/-- Embedding of `AnnotationDB.get_annotations_for_file`. -/
def getAnnotsForFile (db : DB) (file_path : String) : List LoadedAnnot :=
  (queryRows db file_path).map loadRow

/-- The `ORDER BY field_name, line_item_number, group_id,
multipage_position, id` key of the CSV export query. -/
def exportKey (r : DbRow) :
    Lex (String × Lex (String × Lex (String × Lex (WithBot Nat × Nat)))) :=
  toLex (r.field_name, toLex (r.line_item_number,
    toLex (r.group_id, toLex ((r.multipage_position : WithBot Nat), r.id))))

/-- Comparison relation for the export query. -/
def exportle (a b : DbRow) : Prop := exportKey a ≤ exportKey b

instance : DecidableRel exportle := fun a b =>
  inferInstanceAs (Decidable (exportKey a ≤ exportKey b))

/-- Embedding of `AnnotationDB.export_annotations_to_csv`.  The function
fetches the file's rows; with no rows it returns `False` before touching
the filesystem; otherwise the write succeeds or raises depending on the
environment, modelled by the `io_ok` flag.  The second component is the
row list serialized on success. -/
def exportAnnotsToCsv (db : DB) (file_path : String) (io_ok : Bool) :
    Bool × List DbRow :=
  let rows := db.rows.filter (fun r => r.file_name == basename file_path)
  if rows.isEmpty then (false, [])
  else if io_ok then (true, List.insertionSort exportle rows)
  else (false, [])

/-- The loaded document as the selection logic sees it (`PDFDocument` and
the per-page data of `PDFViewer`): a page count, the page rectangles
(`page.rect`, whose origin is `(0, 0)`), and clipped text extraction
(`get_text_in_rect`). -/
structure Env where
  page_count : Nat
  pageWidth : Nat → Rat
  pageHeight : Nat → Rat
  textInRect : Nat → Rect → String

/-- The payload of a `PDFViewer.annotationAdded` signal: the dictionary
built in `mouseReleaseEvent` (single page) or `handleMultiPageSelection`
(one per page of a span).  `Option` fields model keys absent from the
single-page payload. -/
structure RawAnnot where
  page : Nat
  rect : Rect
  text : String
  is_multipage : Bool
  multipage_position : Option Nat := none
  multipage_type : Option String := none
  group_id : Option String := none
  complete_text : Option String := none
deriving DecidableEq

/-- The `start` fragment payload of `handleMultiPageSelection`: the rect
runs from the selection start point to the page's right/bottom edge, and
the payload carries the span's complete concatenated text. -/
def startFrag (env : Env) (start_page : Nat) (start_pos : Rat × Rat)
    (complete_text group_id : String) : RawAnnot :=
  { page := start_page
    rect := ⟨start_pos.1, start_pos.2, env.pageWidth start_page,
             env.pageHeight start_page⟩
    text := env.textInRect start_page
      ⟨start_pos.1, start_pos.2, env.pageWidth start_page,
       env.pageHeight start_page⟩
    is_multipage := true
    multipage_position := some 1
    multipage_type := some "start"
    group_id := some group_id
    complete_text := some complete_text }

/-- A `middle` fragment payload of `handleMultiPageSelection`: the entire
page rect, at position `p - start_page + 1`. -/
def middleFrag (env : Env) (start_page : Nat) (group_id : String)
    (p : Nat) : RawAnnot :=
  { page := p
    rect := ⟨0, 0, env.pageWidth p, env.pageHeight p⟩
    text := env.textInRect p ⟨0, 0, env.pageWidth p, env.pageHeight p⟩
    is_multipage := true
    multipage_position := some (p - start_page + 1)
    multipage_type := some "middle"
    group_id := some group_id }

/-- The `end` fragment payload of `handleMultiPageSelection`: the rect
runs from the page's top-left corner to the selection's terminal point. -/
def endFrag (env : Env) (end_page : Nat) (end_pos : Rat × Rat)
    (total_pages : Nat) (group_id : String) : RawAnnot :=
  { page := end_page
    rect := ⟨0, 0, end_pos.1, end_pos.2⟩
    text := env.textInRect end_page ⟨0, 0, end_pos.1, end_pos.2⟩
    is_multipage := true
    multipage_position := some total_pages
    multipage_type := some "end"
    group_id := some group_id }

/-- Embedding of `PDFViewer.handleMultiPageSelection`: one `start`
fragment, one `middle` fragment per strictly intermediate page, and one
`end` fragment, with positions assigned `1, 2, ...` in page order and a
single minted `group_id` shared by the whole span.  The signal emissions
become the returned list, in emission order. -/
def handleMultiPageSelection (env : Env) (start_page : Nat)
    (start_pos : Rat × Rat) (end_page : Nat) (end_pos : Rat × Rat)
    (complete_text group_id : String) : List RawAnnot :=
  startFrag env start_page start_pos complete_text group_id ::
    (List.range' (start_page + 1) (end_page - (start_page + 1))).map
      (middleFrag env start_page group_id) ++
    [endFrag env end_page end_pos (end_page - start_page + 1) group_id]

/-- A highlight mark on a document page.  The underlying `fitz` highlight
carries no identity beyond its page and rect; the `tag` records, for
attribution in statements only, the `group_id` of the selection that
created the mark (empty for single-page selections) — removal never reads
it. -/
structure PageMark where
  page : Nat
  rect : Rect
  tag : String
deriving DecidableEq, Repr

/-- Remove the `k`-th mark (0-based) among the marks of page `p`,
preserving every other mark. -/
def removeMarkAt : List PageMark → Nat → Nat → List PageMark
  | [], _, _ => []
  | m :: rest, p, k =>
    if m.page = p then
      if k = 0 then rest else m :: removeMarkAt rest p (k - 1)
    else m :: removeMarkAt rest p k

/-- Embedding of `PDFDocument.remove_annotation`: fails when the page is
out of range or holds no marks; with a valid index it removes that page's
mark at the index, and with no index (or an out-of-range one) it removes
the page's last mark. -/
def pdfRemoveAnnot (page_count : Nat) (marks : List PageMark) (p : Nat)
    (annot_idx : Option Nat) : Bool × List PageMark :=
  if p ≥ page_count then (false, marks)
  else
    let on_page := marks.filter (fun m => m.page = p)
    if on_page.length = 0 then (false, marks)
    else
      match annot_idx with
      | some i =>
        if i < on_page.length then (true, removeMarkAt marks p i)
        else (true, removeMarkAt marks p (on_page.length - 1))
      | none => (true, removeMarkAt marks p (on_page.length - 1))

/-- Embedding of `PDFDocument.add_highlight_annotation`: appends a mark
when the page index is in range, does nothing otherwise (the caller
ignores the returned annot object). -/
def addHighlightMark (page_count : Nat) (marks : List PageMark) (p : Nat)
    (r : Rect) (tag : String) : List PageMark :=
  if p < page_count then marks ++ [⟨p, r, tag⟩] else marks

/-- The session state held by `AnnotationHandler` together with the
document's highlight marks that its operations manipulate. -/
structure HandlerSt where
  annots : List Annot := []
  marks : List PageMark := []
  last_line_item_number : String := ""
deriving DecidableEq

/-- The base annotation dictionary built at the top of
`AnnotationHandler.add_annotation`, with the multi-page keys attached when
applicable. -/
def handlerBaseAnnot (next_annot_id : Nat) (page_num : Nat) (rect : Rect)
    (text : String) (is_multipage : Bool) (multipage_position : Option Nat)
    (multipage_type group_id : String) : Annot :=
  { page := page_num
    rect := rect
    text := text
    annot_id := next_annot_id
    is_multipage := is_multipage
    multipage_position := if is_multipage then multipage_position else none
    multipage_type := if is_multipage then some multipage_type else none
    group_id := if is_multipage then some group_id else none }

/-- `annotation.update(field_info)`: merge the dialog's keys into the
dictionary (including `standardized_date` exactly when the field info
carries it). -/
def handlerClassified (fi : Classification) (a : Annot) : Annot :=
  { a with
    type_ := some fi.type_
    field := some fi.field
    line_item_number := some fi.line_item_number
    standardized_date := fi.standardized_date }

/-- The pure record construction inside `AnnotationHandler.add_annotation`:
build the base dictionary, merge the field info, and, for a date-bearing
field whose merged record has no `standardized_date` and non-empty text,
store the cleaned text and normalize it. -/
def handlerMakeAnnot (parse : String → Option Date) (next_annot_id : Nat)
    (page_num : Nat) (rect : Rect) (text : String)
    (field_info : Option Classification) (is_multipage : Bool)
    (multipage_position : Option Nat) (multipage_type group_id : String) :
    Annot :=
  match field_info with
  | none =>
    handlerBaseAnnot next_annot_id page_num rect text is_multipage
      multipage_position multipage_type group_id
  | some fi =>
    if fi.field ∈ dateFields ∧ fi.standardized_date = none ∧ text ≠ "" then
      match standardizeDate parse (cleanTextForDateField text fi.field) with
      | some d =>
        { handlerClassified fi (handlerBaseAnnot next_annot_id page_num rect
            text is_multipage multipage_position multipage_type group_id) with
          text := cleanTextForDateField text fi.field
          standardized_date := some d }
      | none =>
        { handlerClassified fi (handlerBaseAnnot next_annot_id page_num rect
            text is_multipage multipage_position multipage_type group_id) with
          text := cleanTextForDateField text fi.field }
    else
      handlerClassified fi (handlerBaseAnnot next_annot_id page_num rect text
        is_multipage multipage_position multipage_type group_id)

/-- Embedding of `AnnotationHandler.add_annotation`: add the highlight to
the document, build the annotation record, remember a non-empty
line-item number of an accepted `line_item` classification, and append the
record to the collection. -/
def addAnnot (parse : String → Option Date) (env : Env) (st : HandlerSt)
    (page_num : Nat) (rect : Rect) (text : String)
    (field_info : Option Classification) (is_multipage : Bool)
    (multipage_position : Option Nat) (multipage_type group_id : String) :
    HandlerSt × Annot :=
  let marks' := addHighlightMark env.page_count st.marks page_num rect group_id
  let a := handlerMakeAnnot parse st.annots.length page_num rect text
    field_info is_multipage multipage_position multipage_type group_id
  let last' :=
    match field_info with
    | some fi =>
      if fi.type_ = "line_item" ∧ fi.line_item_number ≠ "" then
        fi.line_item_number
      else st.last_line_item_number
    | none => st.last_line_item_number
  ({ annots := st.annots ++ [a], marks := marks',
     last_line_item_number := last' }, a)

/-- Embedding of `AnnotationHandler.remove_annotation_by_index`: check the
index, locate the target's ordinal among the same-page entries of the
collection, remove the document mark at that ordinal, and drop the entry.
The index is an `Int` because the Python caller may pass a negative
value. -/
def removeAnnotByIndex (env : Env) (st : HandlerSt) (index : Int) :
    Bool × HandlerSt :=
  if st.annots = [] ∨ index < 0 ∨ index ≥ (st.annots.length : Int) then
    (false, st)
  else
    let i := index.toNat
    let a := st.annots.getD i default
    let page_num := a.page
    let page_annots := (st.annots.enum).filter (fun q => q.2.page = page_num)
    let annot_position := page_annots.findIdx? (fun q => q.1 = i)
    match pdfRemoveAnnot env.page_count st.marks page_num annot_position with
    | (true, marks') =>
      (true, { st with annots := st.annots.eraseIdx i, marks := marks' })
    | (false, _) => (false, st)

/-- Embedding of `AnnotationHandler.remove_last_annotation`: fail on an
empty collection, otherwise remove the last mark of the last entry's page
and drop the entry. -/
def removeLastAnnot (env : Env) (st : HandlerSt) : Bool × HandlerSt :=
  if st.annots = [] then (false, st)
  else
    let a := st.annots.getLast?.getD default
    match pdfRemoveAnnot env.page_count st.marks a.page none with
    | (true, marks') =>
      (true, { st with annots := st.annots.dropLast, marks := marks' })
    | (false, _) => (false, st)

/-- The state of `MainWindow` relevant to the annotation pipeline: the
handler state, the `last_field_info` / `last_annotation_group_id`
attributes (absent until first set, hence the outer `Option`; the inner
value is the `annotation.get('group_id')` result), and the database. -/
structure AppState where
  h : HandlerSt := {}
  last_field_info : Option Classification := none
  last_group_id : Option (Option String) := none
  db : DB := DB.empty

/-- The freshly initialized session: empty collection, no remembered
classification, empty store. -/
def initialState : AppState := {}

/-- Embedding of `MainWindow._process_date_field`: for a date-bearing
field, clean the text, normalize it, and on success record the value in
the field info (on failure the user is warned and the info is left
unchanged). -/
def processDateField (parse : String → Option Date) (fi : Classification)
    (text : String) : Classification :=
  if fi.field ∈ dateFields then
    match standardizeDate parse (cleanText text) with
    | some d => if d = "" then fi else { fi with standardized_date := some d }
    | none => fi
  else fi

/-- Embedding of `MainWindow._cleanup_annotation`: remove the last mark of
the payload's page and, for a multi-page payload with a truthy group id,
the last mark of every other page of the document.  Only the document
marks change. -/
def cleanupAnnot (env : Env) (st : AppState) (a : RawAnnot) : AppState :=
  let m1 := (pdfRemoveAnnot env.page_count st.h.marks a.page none).2
  let group_truthy : Bool :=
    a.is_multipage && (match a.group_id with | some g => g ≠ "" | none => false)
  let m2 :=
    if group_truthy then
      (List.range env.page_count).foldl
        (fun ms p =>
          if p ≠ a.page then (pdfRemoveAnnot env.page_count ms p none).2 else ms)
        m1
    else m1
  { st with h := { st.h with marks := m2 } }

/-- Write the freshly assigned database id into the collection's last
entry (`self.annotation_handler.annotations[-1]['id'] = annotation_id`). -/
def setLastId (l : List Annot) (i : Nat) : List Annot :=
  l.dropLast ++ [{ l.getLast?.getD default with id := some i }]

/-- The add path at the bottom of `MainWindow.onAnnotationAdded`: call the
handler, persist the produced record, and store the returned id (when
truthy) into the collection's last entry. -/
def applyAddPath (parse : String → Option Date) (env : Env)
    (file_path : String) (st : AppState) (fi : Option Classification)
    (a : RawAnnot) : AppState :=
  let step := addAnnot parse env st.h a.page a.rect a.text fi a.is_multipage
    a.multipage_position (a.multipage_type.getD "") (a.group_id.getD "")
  let h' := step.1
  let res := dbAddAnnot parse st.db file_path step.2
  let h'' :=
    match res.1 with
    | some i =>
      if i ≠ 0 ∧ h'.annots ≠ [] then { h' with annots := setLastId h'.annots i }
      else h'
    | none => h'
  { st with h := h'', db := res.2 }

/-- Embedding of `MainWindow.onAnnotationAdded` for one signal payload.
`resp` is the classification dialog's result (`none` = cancelled), used
only when the dialog is shown: for single-page payloads and for the
`start` fragment of a multi-page group.  Acceptance on a `start` fragment
remembers the (date-processed) field info and group id; later fragments of
the same group reuse them, and are added even when no field info is
available (`if field_info or not show_dialog`). -/
def onAnnotAdded (parse : String → Option Date) (env : Env)
    (file_path : String) (resp : Option Classification) (st : AppState)
    (a : RawAnnot) : AppState :=
  let show_dialog := (!a.is_multipage) || (a.multipage_type == some "start")
  if show_dialog then
    match resp with
    | none => cleanupAnnot env st a
    | some fi0 =>
      if a.is_multipage then
        let text_to_use := a.complete_text.getD a.text
        let fi := processDateField parse fi0 text_to_use
        let st' :=
          { st with last_field_info := some fi, last_group_id := some a.group_id }
        applyAddPath parse env file_path st' (some fi) a
      else applyAddPath parse env file_path st (some fi0) a
  else
    let fi :=
      match st.last_field_info, st.last_group_id with
      | some f, some g => if a.group_id = g then some f else none
      | _, _ => none
    applyAddPath parse env file_path st fi a

/-- Sequential delivery of the signal payloads of one selection to
`onAnnotationAdded` (Qt signals on one thread are synchronous, so the
emissions of `handleMultiPageSelection` are handled in order). -/
def processFragments (parse : String → Option Date) (env : Env)
    (file_path : String) (resp : Option Classification) (st : AppState)
    (frags : List RawAnnot) : AppState :=
  frags.foldl (onAnnotAdded parse env file_path resp) st

/-- A sample persisted row used by concrete export scenarios. -/
def sampleRow : DbRow :=
  { id := 1
    file_name := "doc.pdf"
    page_num := 0
    rect := ⟨1, 2, 3, 4⟩
    annotation_text := "x"
    annotation_type := "meta"
    field_name := "currency"
    line_item_number := ""
    standardized_date := none
    is_multipage := false
    multipage_position := none
    multipage_type := ""
    group_id := "" }

/-- A store holding exactly one row for `doc.pdf`. -/
def dbOneRow : DB := { rows := [sampleRow], next_id := 2 }
/-- One call to `AnnotationHandler.add_annotation`, as recorded for a
session trace. -/
structure AddOp where
  page : Nat
  rect : Rect
  text : String
  field_info : Option Classification
  is_multipage : Bool := false
  multipage_position : Option Nat := none
  multipage_type : String := ""
  group_id : String := ""

/-- State transition of one recorded `add_annotation` call. -/
def applyAdd (parse : String → Option Date) (env : Env) (st : HandlerSt)
    (op : AddOp) : HandlerSt :=
  (addAnnot parse env st op.page op.rect op.text op.field_info
    op.is_multipage op.multipage_position op.multipage_type op.group_id).1

/-- An operation whose accepted classification is a `line_item` with a
non-empty line-item number. -/
def acceptedLineItem (op : AddOp) : Bool :=
  match op.field_info with
  | some fi => fi.type_ == "line_item" && fi.line_item_number != ""
  | none => false

/-- The last-used line-item number a session trace should remember: the
number of the most recent accepted `line_item` classification with a
non-empty number, or the empty string. -/
def lastLineSpec (ops : List AddOp) : String :=
  match ops.reverse.find? acceptedLineItem with
  | some op =>
    match op.field_info with
    | some fi => fi.line_item_number
    | none => ""
  | none => ""
/-- A small concrete document environment for witness evaluations. -/
def envC : Env :=
  { page_count := 3
    pageWidth := fun _ => 100
    pageHeight := fun _ => 200
    textInRect := fun _ _ => "x" }

/-- A concrete classified annotation carrying a pre-computed
`standardized_date`, as the multi-page flow produces. -/
def annotC : Annot :=
  { page := 0
    rect := ⟨1, 2, 3, 4⟩
    text := "d"
    annot_id := 0
    type_ := some "meta"
    field := some "rfq_date"
    line_item_number := some ""
    standardized_date := some "2024-03-07" }

/-- A concrete dialog classification for witness evaluations. -/
def fiC : Classification :=
  { type_ := "meta", field := "rfq_date", line_item_number := "" }

instance : Inhabited DbRow :=
  ⟨{ id := 0
     file_name := ""
     page_num := 0
     rect := ⟨0, 0, 0, 0⟩
     annotation_text := ""
     annotation_type := ""
     field_name := ""
     line_item_number := ""
     standardized_date := none
     is_multipage := false
     multipage_position := none
     multipage_type := ""
     group_id := "" }⟩
/-- The document highlight mark created for an annotation: its page, its
rect, and (for attribution in statements) its selection's group id. -/
def markOf (a : Annot) : PageMark :=
  ⟨a.page, a.rect, a.group_id.getD ""⟩
/-- A store populated by a sequence of inserts (file path and annotation
per insert), starting from the fresh database. -/
def insertMany (parse : String → Option Date)
    (ops : List (String × Annot)) : DB :=
  ops.foldl (fun db op => (dbAddAnnot parse db op.1 op.2).2) DB.empty

/-- All committed row ids are below the id counter. -/
def dbIdsOk (db : DB) : Prop :=
  ∀ row ∈ db.rows, row.id < db.next_id

/-! ### Text-cleaning lemmas -/

theorem dropWhile_dropWhile {α : Type} (p : α → Bool) (l : List α) :
    (l.dropWhile p).dropWhile p = l.dropWhile p := by
  induction l with
  | nil => rfl
  | cons a l ih => by_cases h : p a <;> simp [List.dropWhile_cons, h, ih]

theorem dropWhile_eq_self_append {α : Type} (p : α → Bool) (l x : List α)
    (h : (l ++ x).dropWhile p = l ++ x) : l.dropWhile p = l := by
  cases l with
  | nil => rfl
  | cons a r =>
    by_cases hpa : p a
    · exfalso
      rw [List.cons_append, List.dropWhile_cons, if_pos hpa] at h
      have hlen := congrArg List.length h
      rw [List.length_cons] at hlen
      have hle := (List.dropWhile_sublist (l := r ++ x) p).length_le
      omega
    · simp [List.dropWhile_cons, hpa]

theorem trimChars_sublist (l : List Char) : List.Sublist (trimChars l) l := by
  have h1 : List.Sublist (l.dropWhile isWs) l := List.dropWhile_sublist _
  have h2 : List.Sublist ((l.dropWhile isWs).reverse.dropWhile isWs)
      (l.dropWhile isWs).reverse := List.dropWhile_sublist _
  have h3 := h2.reverse
  rw [List.reverse_reverse] at h3
  exact h3.trans h1

theorem reverse_trim_decomp (p : Char → Bool) (m : List Char) :
    m = (m.reverse.dropWhile p).reverse ++ (m.reverse.takeWhile p).reverse := by
  conv_lhs => rw [← List.reverse_reverse m]
  rw [← List.reverse_append, List.takeWhile_append_dropWhile]

theorem trimChars_dropWhile (l : List Char) :
    (trimChars l).dropWhile isWs = trimChars l := by
  have hTrim : trimChars l = ((l.dropWhile isWs).reverse.dropWhile isWs).reverse :=
    rfl
  have hu : (l.dropWhile isWs).dropWhile isWs = l.dropWhile isWs :=
    dropWhile_dropWhile isWs l
  have hpre := reverse_trim_decomp isWs (l.dropWhile isWs)
  apply dropWhile_eq_self_append isWs (trimChars l)
    (((l.dropWhile isWs).reverse.takeWhile isWs).reverse)
  have hsplit : trimChars l ++ ((l.dropWhile isWs).reverse.takeWhile isWs).reverse =
      l.dropWhile isWs := by
    rw [hTrim]; exact hpre.symm
  rw [hsplit]
  exact hu

theorem trimChars_reverse_dropWhile (l : List Char) :
    (trimChars l).reverse.dropWhile isWs = (trimChars l).reverse := by
  have hTrim : trimChars l = ((l.dropWhile isWs).reverse.dropWhile isWs).reverse :=
    rfl
  rw [hTrim, List.reverse_reverse]
  exact dropWhile_dropWhile isWs _

theorem trimChars_trimChars (l : List Char) :
    trimChars (trimChars l) = trimChars l := by
  calc trimChars (trimChars l)
      = (((trimChars l).dropWhile isWs).reverse.dropWhile isWs).reverse := rfl
    _ = ((trimChars l).reverse.dropWhile isWs).reverse := by
        rw [trimChars_dropWhile]
    _ = ((trimChars l).reverse).reverse := by rw [trimChars_reverse_dropWhile]
    _ = trimChars l := List.reverse_reverse _

theorem cleanChars_idem (l : List Char) :
    cleanChars (cleanChars l) = cleanChars l := by
  unfold cleanChars
  have hfilter : (trimChars (l.filter notBracket)).filter notBracket =
      trimChars (l.filter notBracket) := by
    apply List.filter_eq_self.mpr
    intro c hc
    have hmem : c ∈ l.filter notBracket :=
      (trimChars_sublist (l.filter notBracket)).mem hc
    exact List.of_mem_filter hmem
  rw [hfilter, trimChars_trimChars]

theorem cleanText_idem (s : String) : cleanText (cleanText s) = cleanText s := by
  unfold cleanText
  exact congrArg String.mk (cleanChars_idem s.data)

theorem standardizeDate_cleanText (parse : String → Option Date) (s : String) :
    standardizeDate parse s = standardizeDate parse (cleanText s) := by
  by_cases hs : s = ""
  · subst hs; rfl
  · by_cases hc : cleanText s = ""
    · simp [standardizeDate, hs, hc]
    · simp only [standardizeDate, hs, hc, if_false, if_neg hc, if_neg hs,
        cleanText_idem]

/-! ### Claim theorems -/

/-- Claim C7: the date pipeline strips the bracket characters and
surrounding whitespace before parsing (normalizing any input is the same
as normalizing its cleaned form, and the handler cleans date-field text
the same way), and concretely the input text `"[ 2024/03/07 ]"` classified
as `rfq_date` is stored with the cleaned text `"2024/03/07"` and the
standardized date `"2024-03-07"`. -/
theorem C7_bracket_stripping :
    (∀ (parse : String → Option Date) (s : String),
      standardizeDate parse s = standardizeDate parse (cleanText s))
    ∧ cleanTextForDateField ("[ 2024/03/07 ]") ("rfq_date") = "2024/03/07"
    ∧ standardizeDate parseSimple ("[ 2024/03/07 ]") = some ("2024-03-07")
    ∧ (∀ (n pg : Nat) (r : Rect),
        (handlerMakeAnnot parseSimple n pg r ("[ 2024/03/07 ]")
          (some { type_ := "meta", field := "rfq_date", line_item_number := "" })
          false none "" "").text = "2024/03/07"
        ∧ (handlerMakeAnnot parseSimple n pg r ("[ 2024/03/07 ]")
          (some { type_ := "meta", field := "rfq_date", line_item_number := "" })
          false none "" "").standardized_date = some ("2024-03-07")) := by
  refine ⟨standardizeDate_cleanText, by decide, by decide, ?_⟩
  intro n pg r
  exact ⟨rfl, rfl⟩

/-- Claim C4 counterexample: the zero-record outcome of the CSV export is
the boolean `False`, exactly the outcome of an I/O failure with rows
present, so it is not distinguishable from I/O failure. -/
theorem C4_empty_outcome_not_distinguishable :
    (exportAnnotsToCsv DB.empty ("doc.pdf") true).1 = false
    ∧ (exportAnnotsToCsv dbOneRow ("doc.pdf") false).1 = false
    ∧ (exportAnnotsToCsv DB.empty ("doc.pdf") true).1 =
      (exportAnnotsToCsv dbOneRow ("doc.pdf") false).1 := by
  decide

/-- Claim C4 (amended): exporting a file with zero stored records returns
the failure outcome `False` with nothing written, which is distinguishable
from success-with-rows (`True`) — but it is the same value as the I/O
failure outcome, not a distinct `empty` signal. -/
theorem C4_export_empty :
    ∀ (db : DB) (fp : String) (io_ok : Bool),
      (db.rows.filter (fun r => r.file_name == basename fp) = [] →
        exportAnnotsToCsv db fp io_ok = (false, []))
      ∧ (db.rows.filter (fun r => r.file_name == basename fp) ≠ [] →
        io_ok = true → (exportAnnotsToCsv db fp io_ok).1 = true) := by
  intro db fp io_ok
  constructor
  · intro h
    simp [exportAnnotsToCsv, h]
  · intro h hio
    subst hio
    simp [exportAnnotsToCsv, List.isEmpty_iff, h]

/-- Instantiation of `C4_export_empty` at concrete stores, discharging
both hypotheses. -/
theorem C4_export_empty_witness :
    (DB.empty.rows.filter (fun r => r.file_name == basename ("doc.pdf")) = []
      ∧ exportAnnotsToCsv DB.empty ("doc.pdf") true = (false, []))
    ∧ (dbOneRow.rows.filter (fun r => r.file_name == basename ("doc.pdf")) ≠ []
      ∧ (exportAnnotsToCsv dbOneRow ("doc.pdf") true).1 = true) :=
  ⟨⟨by decide, (C4_export_empty DB.empty ("doc.pdf") true).1 (by decide)⟩,
   ⟨by decide, (C4_export_empty dbOneRow ("doc.pdf") true).2 (by decide) rfl⟩⟩

theorem applyAdd_last (parse : String → Option Date) (env : Env)
    (st : HandlerSt) (op : AddOp) :
    (applyAdd parse env st op).last_line_item_number =
      match op.field_info with
      | some fi =>
        if fi.type_ = "line_item" ∧ fi.line_item_number ≠ "" then
          fi.line_item_number
        else st.last_line_item_number
      | none => st.last_line_item_number := by
  rfl

theorem foldl_applyAdd_last (parse : String → Option Date) (env : Env) :
    ∀ (ops : List AddOp) (st : HandlerSt),
      (ops.foldl (applyAdd parse env) st).last_line_item_number =
        match ops.reverse.find? acceptedLineItem with
        | some op =>
          match op.field_info with
          | some fi => fi.line_item_number
          | none => ""
        | none => st.last_line_item_number := by
  intro ops
  induction ops with
  | nil => intro st; rfl
  | cons op rest ih =>
    intro st
    rw [List.foldl_cons, ih]
    rw [List.reverse_cons, List.find?_append]
    cases hfind : rest.reverse.find? acceptedLineItem with
    | some x => simp [Option.or_some]
    | none =>
      simp only [Option.none_or]
      rw [applyAdd_last]
      cases hfi : op.field_info with
      | none =>
        have : acceptedLineItem op = false := by
          simp [acceptedLineItem, hfi]
        simp [List.find?, this]
      | some fi =>
        by_cases hcond : fi.type_ = "line_item" ∧ fi.line_item_number ≠ ""
        · have : acceptedLineItem op = true := by
            simp [acceptedLineItem, hfi, hcond.1, hcond.2]
          simp [List.find?, this, hfi, if_pos hcond]
        · have : acceptedLineItem op = false := by
            simp only [acceptedLineItem, hfi]
            rw [Bool.and_eq_false_iff]
            by_cases h1 : fi.type_ = "line_item"
            · right
              rw [bne_eq_false_iff_eq]
              by_contra h2
              exact hcond ⟨h1, h2⟩
            · left
              simp [h1]
          simp [List.find?, this, hfi, if_neg hcond]

/-- Claim C10: the session's remembered last-used line-item number starts
empty; one `add_annotation` call changes it exactly when its accepted
classification is a non-empty-numbered `line_item` (to that number), and a
whole session trace therefore remembers the most recent such number. -/
theorem C10_last_line_item (parse : String → Option Date) (env : Env) :
    (({} : HandlerSt).last_line_item_number = "")
    ∧ (∀ (st : HandlerSt) (op : AddOp),
        (applyAdd parse env st op).last_line_item_number =
          match op.field_info with
          | some fi =>
            if fi.type_ = "line_item" ∧ fi.line_item_number ≠ "" then
              fi.line_item_number
            else st.last_line_item_number
          | none => st.last_line_item_number)
    ∧ (∀ ops : List AddOp,
        (ops.foldl (applyAdd parse env) {}).last_line_item_number =
          lastLineSpec ops) := by
  refine ⟨rfl, applyAdd_last parse env, ?_⟩
  intro ops
  rw [foldl_applyAdd_last]
  unfold lastLineSpec
  cases ops.reverse.find? acceptedLineItem with
  | none => rfl
  | some op => rfl

/-- Claim C5: in every multi-page selection (spanning pages `s` through
`s + k + 1`), the start fragment's rect runs from the selection start
point to the start page's right/bottom edge, every strictly intermediate
page contributes its entire page rect, and the end fragment's rect runs
from `(0, 0)` to the terminal point; concretely, a two-page selection from
page 2 to point `(50, 80)` on page 3 yields exactly a start fragment at
position 1 with the extended rect and an end fragment at position 2 with
rect `(0, 0, 50, 80)`, sharing one group id. -/
theorem C5_fragment_rects (env : Env) (s k : Nat) (spos epos : Rat × Rat)
    (ct gid : String) :
    (∀ f ∈ handleMultiPageSelection env s spos (s + k + 1) epos ct gid,
      (f.multipage_type = some "start" →
        f.page = s ∧
        f.rect = ⟨spos.1, spos.2, env.pageWidth s, env.pageHeight s⟩)
      ∧ (f.multipage_type = some "middle" →
        (s + 1 ≤ f.page ∧ f.page < s + k + 1) ∧
        f.rect = ⟨0, 0, env.pageWidth f.page, env.pageHeight f.page⟩)
      ∧ (f.multipage_type = some "end" →
        f.page = s + k + 1 ∧ f.rect = ⟨0, 0, epos.1, epos.2⟩))
    ∧ (∀ (env2 : Env) (sp : Rat × Rat) (ct2 g2 : String),
        handleMultiPageSelection env2 2 sp 3 (50, 80) ct2 g2 =
          [{ page := 2
             rect := ⟨sp.1, sp.2, env2.pageWidth 2, env2.pageHeight 2⟩
             text := env2.textInRect 2
               ⟨sp.1, sp.2, env2.pageWidth 2, env2.pageHeight 2⟩
             is_multipage := true
             multipage_position := some 1
             multipage_type := some "start"
             group_id := some g2
             complete_text := some ct2 },
           { page := 3
             rect := ⟨0, 0, 50, 80⟩
             text := env2.textInRect 3 ⟨0, 0, 50, 80⟩
             is_multipage := true
             multipage_position := some 2
             multipage_type := some "end"
             group_id := some g2
             complete_text := none }]) := by
  constructor
  · intro f hf
    unfold handleMultiPageSelection at hf
    rcases List.mem_cons.mp hf with hf | hf
    · subst hf
      exact ⟨fun _ => ⟨rfl, rfl⟩, fun h => by simp [startFrag] at h,
        fun h => by simp [startFrag] at h⟩
    · rcases List.mem_append.mp hf with hf | hf
      · obtain ⟨p, hp, hfeq⟩ := List.mem_map.mp hf
        obtain ⟨i, hi, hpi⟩ := List.mem_range'.mp hp
        subst hfeq
        refine ⟨fun h => by simp [middleFrag] at h, fun _ => ⟨⟨?_, ?_⟩, rfl⟩,
          fun h => by simp [middleFrag] at h⟩
        · show s + 1 ≤ p
          omega
        · show p < s + k + 1
          omega
      · rw [List.mem_singleton] at hf
        subst hf
        exact ⟨fun h => by simp [endFrag] at h, fun h => by simp [endFrag] at h,
          fun _ => ⟨rfl, rfl⟩⟩
  · intro env2 sp ct2 g2
    rfl

/-! ### Pipeline helper lemmas -/

theorem filter_map_mk {α β : Type} (f : α → β) (p : β → Bool) (l : List α) :
    (l.map f).filter p = (l.filter (fun x => p (f x))).map f := by
  induction l with
  | nil => rfl
  | cons a l ih => by_cases h : p (f a) <;> simp [h, ih]

theorem fmtDate_ne_empty (d : Date) : fmtDate d ≠ "" := by
  intro h
  have hlen := congrArg String.length h
  simp only [fmtDate, String.length_append] at hlen
  have h1 : ("-" : String).length = 1 := rfl
  rw [h1] at hlen
  have h0 : ("" : String).length = 0 := rfl
  rw [h0] at hlen
  omega

theorem standardizeDate_some_ne_empty (parse : String → Option Date)
    (s x : String) (h : standardizeDate parse s = some x) : x ≠ "" := by
  unfold standardizeDate at h
  by_cases hs : s = ""
  · rw [if_pos hs] at h
    exact absurd h (by simp)
  · rw [if_neg hs] at h
    by_cases hc : cleanText s = ""
    · rw [if_pos hc] at h
      exact absurd h (by simp)
    · rw [if_neg hc] at h
      obtain ⟨dd, _, hfmt⟩ := Option.map_eq_some'.mp h
      rw [← hfmt]
      exact fmtDate_ne_empty dd

theorem processDateField_fields (parse : String → Option Date)
    (fi : Classification) (t : String) :
    (processDateField parse fi t).type_ = fi.type_
    ∧ (processDateField parse fi t).field = fi.field
    ∧ (processDateField parse fi t).line_item_number = fi.line_item_number := by
  unfold processDateField
  by_cases h : fi.field ∈ dateFields
  · rw [if_pos h]
    cases hs : standardizeDate parse (cleanText t) with
    | none => exact ⟨rfl, rfl, rfl⟩
    | some d =>
      by_cases hd : d = "" <;> simp [hd]
  · rw [if_neg h]
    exact ⟨rfl, rfl, rfl⟩

theorem processDateField_std (parse : String → Option Date)
    (fi : Classification) (t d : String) (hf : fi.field ∈ dateFields)
    (hs : standardizeDate parse (cleanText t) = some d) :
    (processDateField parse fi t).standardized_date = some d := by
  unfold processDateField
  rw [if_pos hf, hs]
  simp [standardizeDate_some_ne_empty parse (cleanText t) d hs]

theorem handlerMakeAnnot_fields (parse : String → Option Date)
    (n pg : Nat) (r : Rect) (text : String) (fi : Classification)
    (mp : Bool) (pos : Option Nat) (mt g : String) :
    (handlerMakeAnnot parse n pg r text (some fi) mp pos mt g).type_ = some fi.type_
    ∧ (handlerMakeAnnot parse n pg r text (some fi) mp pos mt g).field = some fi.field
    ∧ (handlerMakeAnnot parse n pg r text (some fi) mp pos mt g).line_item_number =
        some fi.line_item_number
    ∧ (handlerMakeAnnot parse n pg r text (some fi) mp pos mt g).group_id =
        (if mp then some g else none)
    ∧ (∀ d, fi.standardized_date = some d →
        (handlerMakeAnnot parse n pg r text (some fi) mp pos mt g).standardized_date = some d
        ∧ (handlerMakeAnnot parse n pg r text (some fi) mp pos mt g).text = text) := by
  simp only [handlerMakeAnnot]
  by_cases hc : fi.field ∈ dateFields ∧ fi.standardized_date = none ∧ text ≠ ""
  · rw [if_pos hc]
    cases hs : standardizeDate parse (cleanTextForDateField text fi.field) with
    | none =>
      refine ⟨rfl, rfl, rfl, rfl, fun d hd => ?_⟩
      exact absurd hd (by rw [hc.2.1]; simp)
    | some x =>
      refine ⟨rfl, rfl, rfl, rfl, fun d hd => ?_⟩
      exact absurd hd (by rw [hc.2.1]; simp)
  · rw [if_neg hc]
    exact ⟨rfl, rfl, rfl, rfl, fun d hd => ⟨hd, rfl⟩⟩

theorem dbAddAnnot_rows (parse : String → Option Date) (db : DB)
    (fp : String) (a : Annot) :
    ∃ r, (dbAddAnnot parse db fp a).2.rows = db.rows ++ [r]
    ∧ r.annotation_type = a.type_.getD ""
    ∧ r.field_name = a.field.getD ""
    ∧ r.line_item_number = a.line_item_number.getD ""
    ∧ r.group_id = a.group_id.getD ""
    ∧ r.annotation_text = a.text
    ∧ (a.field.getD "" ∈ dateFields → a.text ≠ "" →
        ∀ d, a.standardized_date = some d → d ≠ "" →
          r.standardized_date = some d) := by
  refine ⟨dbRowOf parse db.next_id fp a, rfl, rfl, rfl, rfl, rfl, rfl, ?_⟩
  intro hfield htext d hd hne
  show dbStdDate parse a = some d
  unfold dbStdDate
  rw [if_pos ⟨hfield, htext⟩]
  simp only [hd]
  rw [if_pos hne]

theorem applyAddPath_db (parse : String → Option Date) (env : Env)
    (fp : String) (st : AppState) (fi : Option Classification) (a : RawAnnot) :
    (applyAddPath parse env fp st fi a).db =
      (dbAddAnnot parse st.db fp (handlerMakeAnnot parse st.h.annots.length
        a.page a.rect a.text fi a.is_multipage a.multipage_position
        (a.multipage_type.getD "") (a.group_id.getD ""))).2 := rfl

theorem applyAddPath_last_info (parse : String → Option Date) (env : Env)
    (fp : String) (st : AppState) (fi : Option Classification) (a : RawAnnot) :
    (applyAddPath parse env fp st fi a).last_field_info = st.last_field_info
    ∧ (applyAddPath parse env fp st fi a).last_group_id = st.last_group_id :=
  ⟨rfl, rfl⟩

theorem onAnnotAdded_nonstart (parse : String → Option Date) (env : Env)
    (fp : String) (resp : Option Classification) (st : AppState)
    (f : RawAnnot) (fi : Classification) (gv : Option String)
    (hm : f.is_multipage = true) (ht : f.multipage_type ≠ some "start")
    (hfi : st.last_field_info = some fi) (hg : st.last_group_id = some gv)
    (hfg : f.group_id = gv) :
    onAnnotAdded parse env fp resp st f = applyAddPath parse env fp st (some fi) f := by
  unfold onAnnotAdded
  have h1 : ((!f.is_multipage) || (f.multipage_type == some "start")) = false := by
    rw [hm]
    simp [ht]
  rw [h1]
  simp only [Bool.false_eq_true, if_false]
  rw [hfi, hg]
  simp [hfg]

theorem onAnnotAdded_start (parse : String → Option Date) (env : Env)
    (fp : String) (st : AppState) (f : RawAnnot) (fi : Classification)
    (hm : f.is_multipage = true) (ht : f.multipage_type = some "start") :
    onAnnotAdded parse env fp (some fi) st f =
      applyAddPath parse env fp
        { st with
          last_field_info :=
            some (processDateField parse fi (f.complete_text.getD f.text))
          last_group_id := some f.group_id }
        (some (processDateField parse fi (f.complete_text.getD f.text))) f := by
  unfold onAnnotAdded
  have h1 : ((!f.is_multipage) || (f.multipage_type == some "start")) = true := by
    rw [hm, ht]
    rfl
  rw [h1]
  simp [hm]

theorem processNonStart (parse : String → Option Date) (env : Env)
    (fp : String) (resp : Option Classification) :
    ∀ (frags : List RawAnnot) (st : AppState) (fi : Classification)
      (gv : Option String),
    st.last_field_info = some fi → st.last_group_id = some gv →
    (∀ f ∈ frags,
      f.is_multipage = true ∧ f.multipage_type ≠ some "start" ∧ f.group_id = gv) →
    (processFragments parse env fp resp st frags).last_field_info = some fi
    ∧ (processFragments parse env fp resp st frags).last_group_id = some gv
    ∧ ∀ row ∈ (processFragments parse env fp resp st frags).db.rows,
        row ∈ st.db.rows ∨
        (row.group_id = gv.getD "" ∧ row.annotation_type = fi.type_
          ∧ row.field_name = fi.field
          ∧ row.line_item_number = fi.line_item_number
          ∧ (∀ d, fi.standardized_date = some d → d ≠ "" →
              fi.field ∈ dateFields → row.annotation_text ≠ "" →
              row.standardized_date = some d)) := by
  intro frags
  induction frags with
  | nil =>
    intro st fi gv hfi hg _
    exact ⟨hfi, hg, fun row hrow => Or.inl hrow⟩
  | cons f rest ih =>
    intro st fi gv hfi hg hall
    obtain ⟨hm, ht, hfg⟩ := hall f (List.mem_cons_self f rest)
    have hstep : processFragments parse env fp resp st (f :: rest) =
        processFragments parse env fp resp (applyAddPath parse env fp st (some fi) f) rest := by
      unfold processFragments
      rw [List.foldl_cons,
        onAnnotAdded_nonstart parse env fp resp st f fi gv hm ht hfi hg hfg]
    set st1 := applyAddPath parse env fp st (some fi) f with hst1
    have hinfo := applyAddPath_last_info parse env fp st (some fi) f
    have hrows1 := dbAddAnnot_rows parse st.db fp
      (handlerMakeAnnot parse st.h.annots.length f.page f.rect f.text (some fi)
        f.is_multipage f.multipage_position (f.multipage_type.getD "")
        (f.group_id.getD ""))
    obtain ⟨r, hreq, hrtype, hrfield, hrlin, hrgroup, hrtext, hrstd⟩ := hrows1
    have hmk := handlerMakeAnnot_fields parse st.h.annots.length f.page f.rect
      f.text fi f.is_multipage f.multipage_position (f.multipage_type.getD "")
      (f.group_id.getD "")
    have hst1rows : st1.db.rows = st.db.rows ++ [r] := by
      rw [hst1, applyAddPath_db]
      exact hreq
    have hP : r.group_id = gv.getD "" ∧ r.annotation_type = fi.type_
        ∧ r.field_name = fi.field ∧ r.line_item_number = fi.line_item_number
        ∧ (∀ d, fi.standardized_date = some d → d ≠ "" →
            fi.field ∈ dateFields → r.annotation_text ≠ "" →
            r.standardized_date = some d) := by
      refine ⟨?_, ?_, ?_, ?_, ?_⟩
      · rw [hrgroup, hmk.2.2.2.1, hm]
        simp [hfg]
      · rw [hrtype, hmk.1]
        rfl
      · rw [hrfield, hmk.2.1]
        rfl
      · rw [hrlin, hmk.2.2.1]
        rfl
      · intro d hd hne hfield htext
        obtain ⟨hastd, hatext⟩ := hmk.2.2.2.2 d hd
        apply hrstd _ _ d hastd hne
        · rw [hmk.2.1]
          exact hfield
        · rw [hatext]
          rw [hrtext, hatext] at htext
          exact htext
    rw [hstep]
    obtain ⟨c1, c2, c3⟩ := ih st1 fi gv
      (by rw [hst1]; rw [(applyAddPath_last_info parse env fp st (some fi) f).1, hfi])
      (by rw [hst1]; rw [(applyAddPath_last_info parse env fp st (some fi) f).2, hg])
      (fun f2 hf2 => hall f2 (List.mem_cons_of_mem f hf2))
    refine ⟨c1, c2, fun row hrow => ?_⟩
    rcases c3 row hrow with hin | hP2
    · rw [hst1rows] at hin
      rcases List.mem_append.mp hin with hin | hin
      · exact Or.inl hin
      · rw [List.mem_singleton] at hin
        subst hin
        exact Or.inr hP
    · exact Or.inr hP2

theorem pipeline_rows (parse : String → Option Date) (env : Env)
    (fp : String) (fi : Classification) (first : RawAnnot)
    (tail : List RawAnnot) (g : String) (st0 : AppState)
    (hm : first.is_multipage = true) (ht : first.multipage_type = some "start")
    (hfg : first.group_id = some g)
    (htail : ∀ f ∈ tail,
      f.is_multipage = true ∧ f.multipage_type ≠ some "start"
        ∧ f.group_id = some g)
    (hrows0 : st0.db.rows = []) :
    ∀ row ∈ (processFragments parse env fp (some fi) st0 (first :: tail)).db.rows,
      row.group_id = g ∧ row.annotation_type = fi.type_
      ∧ row.field_name = fi.field
      ∧ row.line_item_number = fi.line_item_number
      ∧ (∀ d, (processDateField parse fi
            (first.complete_text.getD first.text)).standardized_date = some d →
          d ≠ "" → fi.field ∈ dateFields → row.annotation_text ≠ "" →
          row.standardized_date = some d) := by
  obtain ⟨fi2, hfi2⟩ :
      ∃ x, x = processDateField parse fi (first.complete_text.getD first.text) :=
    ⟨_, rfl⟩
  have hpdf := processDateField_fields parse fi (first.complete_text.getD first.text)
  rw [← hfi2] at hpdf
  have hstep : processFragments parse env fp (some fi) st0 (first :: tail) =
      processFragments parse env fp (some fi)
        (applyAddPath parse env fp
          { st0 with last_field_info := some fi2, last_group_id := some first.group_id }
          (some fi2) first)
        tail := by
    unfold processFragments
    rw [List.foldl_cons, onAnnotAdded_start parse env fp st0 first fi hm ht,
      ← hfi2]
  intro row hrow
  rw [hstep] at hrow
  obtain ⟨r0, hreq, hrtype, hrfield, hrlin, hrgroup, hrtext, hrstd⟩ :=
    dbAddAnnot_rows parse st0.db fp
      (handlerMakeAnnot parse st0.h.annots.length first.page first.rect
        first.text (some fi2) first.is_multipage first.multipage_position
        (first.multipage_type.getD "") (first.group_id.getD ""))
  have hmk := handlerMakeAnnot_fields parse st0.h.annots.length first.page
    first.rect first.text fi2 first.is_multipage first.multipage_position
    (first.multipage_type.getD "") (first.group_id.getD "")
  have hst1rows :
      (applyAddPath parse env fp
        { st0 with last_field_info := some fi2, last_group_id := some first.group_id }
        (some fi2) first).db.rows = [r0] := by
    rw [applyAddPath_db]
    dsimp only
    rw [hreq, hrows0, List.nil_append]
  have hP0 : r0.group_id = g ∧ r0.annotation_type = fi2.type_
      ∧ r0.field_name = fi2.field ∧ r0.line_item_number = fi2.line_item_number
      ∧ (∀ d, fi2.standardized_date = some d → d ≠ "" →
          fi2.field ∈ dateFields → r0.annotation_text ≠ "" →
          r0.standardized_date = some d) := by
    refine ⟨?_, ?_, ?_, ?_, ?_⟩
    · rw [hrgroup, hmk.2.2.2.1, hm]
      simp [hfg]
    · rw [hrtype, hmk.1]
      rfl
    · rw [hrfield, hmk.2.1]
      rfl
    · rw [hrlin, hmk.2.2.1]
      rfl
    · intro d hd hne hfield htext
      obtain ⟨hastd, hatext⟩ := hmk.2.2.2.2 d hd
      apply hrstd _ _ d hastd hne
      · rw [hmk.2.1]
        exact hfield
      · rw [hatext]
        rw [hrtext, hatext] at htext
        exact htext
  obtain ⟨c1, c2, c3⟩ := processNonStart parse env fp (some fi) tail
    (applyAddPath parse env fp
      { st0 with last_field_info := some fi2, last_group_id := some first.group_id }
      (some fi2) first)
    fi2 (some g)
    (by rw [(applyAddPath_last_info parse env fp _ (some fi2) first).1])
    (by rw [(applyAddPath_last_info parse env fp _ (some fi2) first).2]
        show some first.group_id = some (some g)
        rw [hfg])
    htail
  rcases c3 row hrow with hin | hP
  · rw [hst1rows, List.mem_singleton] at hin
    subst hin
    exact ⟨hP0.1, by rw [hP0.2.1, hpdf.1], by rw [hP0.2.2.1, hpdf.2.1],
      by rw [hP0.2.2.2.1, hpdf.2.2],
      fun d hd hne hfield htext =>
        hP0.2.2.2.2 d (by rw [← hfi2] at hd; exact hd) hne
          (by rw [hpdf.2.1]; exact hfield) htext⟩
  · refine ⟨?_, by rw [hP.2.1, hpdf.1], by rw [hP.2.2.1, hpdf.2.1],
      by rw [hP.2.2.2.1, hpdf.2.2], fun d hd hne hfield htext => ?_⟩
    · have := hP.1
      simpa using this
    · exact hP.2.2.2.2 d (by rw [← hfi2] at hd; exact hd) hne
        (by rw [hpdf.2.1]; exact hfield) htext

theorem filter_eq_nil_of_all {α : Type} (p : α → Bool) (l : List α)
    (h : ∀ x ∈ l, p x = false) : l.filter p = [] := by
  induction l with
  | nil => rfl
  | cons a l ih =>
    rw [List.filter_cons, h a (List.mem_cons_self a l)]
    simp only [Bool.false_eq_true, if_false]
    exact ih fun x hx => h x (List.mem_cons_of_mem a hx)

theorem range'_pos_map (s : Nat) : ∀ (k j : Nat),
    (List.range' (s + 1 + j) k).map (fun p => some (p - s + 1)) =
      (List.range' (2 + j) k).map (some : Nat → Option Nat) := by
  intro k
  induction k with
  | zero => intro j; rfl
  | succ k ih =>
    intro j
    rw [List.range'_succ, List.range'_succ, List.map_cons, List.map_cons]
    refine congrArg₂ List.cons ?_ ?_
    · show some (s + 1 + j - s + 1) = some (2 + j)
      congr 1
      omega
    · have h1 : s + 1 + j + 1 = s + 1 + (j + 1) := by omega
      have h2 : 2 + j + 1 = 2 + (j + 1) := by omega
      rw [h1, h2]
      exact ih (j + 1)

theorem handleMPS_decomp (env : Env) (s k : Nat) (spos epos : Rat × Rat)
    (ct gid : String) :
    handleMultiPageSelection env s spos (s + k + 1) epos ct gid =
      startFrag env s spos ct gid ::
        (List.range' (s + 1) k).map (middleFrag env s gid) ++
        [endFrag env (s + k + 1) epos (k + 2) gid] := by
  have hk : s + k + 1 - (s + 1) = k := by omega
  have htot : s + k + 1 - s + 1 = k + 2 := by omega
  unfold handleMultiPageSelection
  rw [hk, htot]

theorem handleMPS_tail_nonstart (env : Env) (s k : Nat) (epos : Rat × Rat)
    (gid : String) :
    ∀ f ∈ (List.range' (s + 1) k).map (middleFrag env s gid) ++
        [endFrag env (s + k + 1) epos (k + 2) gid],
      f.is_multipage = true ∧ f.multipage_type ≠ some "start"
        ∧ f.group_id = some gid := by
  intro f hf
  rcases List.mem_append.mp hf with hf | hf
  · obtain ⟨p, _, he⟩ := List.mem_map.mp hf
    subst he
    exact ⟨rfl, by simp [middleFrag], rfl⟩
  · rw [List.mem_singleton] at hf
    subst hf
    exact ⟨rfl, by simp [endFrag], rfl⟩

/-- Claim C2: a multi-page selection spanning pages `s` through
`s + k + 1` produces exactly one `start` fragment at position 1, exactly
one `end` fragment at position `k + 2`, and `k` `middle` fragments at
strictly increasing positions `2 .. k + 1`; all fragments carry the minted
group id; the classification dialog is shown for exactly one payload
(the `start` fragment); and every record the accepted classification
persists for the group carries the dialog's `type`, `field` and
`line_item_number`. -/
theorem C2_fragment_invariants (parse : String → Option Date) (env : Env)
    (fp : String) (s k : Nat) (spos epos : Rat × Rat) (ct gid : String)
    (fi : Classification) :
    ((handleMultiPageSelection env s spos (s + k + 1) epos ct gid).filter
        (fun f => f.multipage_type == some "start")).map
        (fun f => f.multipage_position) = [some 1]
    ∧ ((handleMultiPageSelection env s spos (s + k + 1) epos ct gid).filter
        (fun f => f.multipage_type == some "end")).map
        (fun f => f.multipage_position) = [some (k + 2)]
    ∧ ((handleMultiPageSelection env s spos (s + k + 1) epos ct gid).filter
        (fun f => f.multipage_type == some "middle")).map
        (fun f => f.multipage_position) =
        (List.range' 2 k).map (some : Nat → Option Nat)
    ∧ (∀ f ∈ handleMultiPageSelection env s spos (s + k + 1) epos ct gid,
        f.group_id = some gid)
    ∧ ((handleMultiPageSelection env s spos (s + k + 1) epos ct gid).filter
        (fun f => (!f.is_multipage) || (f.multipage_type == some "start"))).map
        (fun f => f.multipage_type) = [some "start"]
    ∧ (∀ row ∈ (processFragments parse env fp (some fi) initialState
          (handleMultiPageSelection env s spos (s + k + 1) epos ct gid)).db.rows,
        row.group_id = gid →
          row.annotation_type = fi.type_ ∧ row.field_name = fi.field
          ∧ row.line_item_number = fi.line_item_number) := by
  rw [handleMPS_decomp]
  have hmidS : ((List.range' (s + 1) k).map (middleFrag env s gid)).filter
      (fun f => f.multipage_type == some "start") = [] := by
    apply filter_eq_nil_of_all
    intro x hx
    obtain ⟨p, _, he⟩ := List.mem_map.mp hx
    subst he
    rfl
  have hmidE : ((List.range' (s + 1) k).map (middleFrag env s gid)).filter
      (fun f => f.multipage_type == some "end") = [] := by
    apply filter_eq_nil_of_all
    intro x hx
    obtain ⟨p, _, he⟩ := List.mem_map.mp hx
    subst he
    rfl
  have hmidM : ((List.range' (s + 1) k).map (middleFrag env s gid)).filter
      (fun f => f.multipage_type == some "middle") =
      (List.range' (s + 1) k).map (middleFrag env s gid) := by
    apply List.filter_eq_self.mpr
    intro x hx
    obtain ⟨p, _, he⟩ := List.mem_map.mp hx
    subst he
    rfl
  have hmidD : ((List.range' (s + 1) k).map (middleFrag env s gid)).filter
      (fun f => (!f.is_multipage) || (f.multipage_type == some "start")) = [] := by
    apply filter_eq_nil_of_all
    intro x hx
    obtain ⟨p, _, he⟩ := List.mem_map.mp hx
    subst he
    rfl
  refine ⟨?_, ?_, ?_, ?_, ?_, ?_⟩
  · rw [List.filter_append, List.filter_cons, hmidS]
    rw [show ((startFrag env s spos ct gid).multipage_type == some "start")
      = true from rfl]
    rw [List.filter_cons]
    rw [show ((endFrag env (s + k + 1) epos (k + 2) gid).multipage_type ==
      some "start") = false from rfl]
    simp [startFrag]
  · rw [List.filter_append, List.filter_cons, hmidE]
    rw [show ((startFrag env s spos ct gid).multipage_type == some "end")
      = false from rfl]
    rw [List.filter_cons]
    rw [show ((endFrag env (s + k + 1) epos (k + 2) gid).multipage_type ==
      some "end") = true from rfl]
    simp [endFrag]
  · rw [List.filter_append, List.filter_cons, hmidM]
    rw [show ((startFrag env s spos ct gid).multipage_type == some "middle")
      = false from rfl]
    rw [List.filter_cons]
    rw [show ((endFrag env (s + k + 1) epos (k + 2) gid).multipage_type ==
      some "middle") = false from rfl]
    simp only [Bool.false_eq_true, if_false, List.filter_nil, List.append_nil]
    rw [List.map_map]
    have hshift := range'_pos_map s k 0
    simp only [Nat.add_zero] at hshift
    calc (List.range' (s + 1) k).map
          ((fun f : RawAnnot => f.multipage_position) ∘ middleFrag env s gid)
        = (List.range' (s + 1) k).map (fun p => some (p - s + 1)) := rfl
      _ = (List.range' 2 k).map (some : Nat → Option Nat) := hshift
  · intro f hf
    rcases List.mem_cons.mp hf with hf | hf
    · subst hf
      rfl
    · exact (handleMPS_tail_nonstart env s k epos gid f hf).2.2
  · rw [List.filter_append, List.filter_cons, hmidD]
    rw [show ((!(startFrag env s spos ct gid).is_multipage) ||
      ((startFrag env s spos ct gid).multipage_type == some "start")) = true
      from rfl]
    rw [List.filter_cons]
    rw [show ((!(endFrag env (s + k + 1) epos (k + 2) gid).is_multipage) ||
      ((endFrag env (s + k + 1) epos (k + 2) gid).multipage_type ==
        some "start")) = false from rfl]
    simp [startFrag]
  · intro row hrow hgid
    have hprops := pipeline_rows parse env fp fi (startFrag env s spos ct gid)
      ((List.range' (s + 1) k).map (middleFrag env s gid) ++
        [endFrag env (s + k + 1) epos (k + 2) gid])
      gid initialState rfl rfl rfl (handleMPS_tail_nonstart env s k epos gid)
      rfl row hrow
    exact ⟨hprops.2.1, hprops.2.2.1, hprops.2.2.2.1⟩

/-- Claim C9: when the inserted annotation's field is date-bearing, its
text non-empty, and it already carries a non-empty `standardized_date`,
the store keeps that value verbatim and never consults the date parser
(the result is identical under any two parse oracles); and in the
multi-page pipeline the value every stored fragment receives this way is
the one derived from the span's complete concatenated text, not from the
fragment's own partial text. -/
theorem C9_supplied_std_verbatim :
    (∀ (parse parse2 : String → Option Date) (db : DB) (fp : String)
        (a : Annot) (d : String),
      a.field.getD "" ∈ dateFields → a.text ≠ "" →
      a.standardized_date = some d → d ≠ "" →
      dbAddAnnot parse db fp a = dbAddAnnot parse2 db fp a
      ∧ (dbAddAnnot parse db fp a).2.rows =
          db.rows ++ [dbRowOf parse db.next_id fp a]
      ∧ (dbRowOf parse db.next_id fp a).standardized_date = some d)
    ∧ (∀ (parse : String → Option Date) (env : Env) (fp : String)
        (s k : Nat) (spos epos : Rat × Rat) (ct gid : String)
        (fi : Classification) (d : String),
        fi.field ∈ dateFields → standardizeDate parse ct = some d →
        ∀ row ∈ (processFragments parse env fp (some fi) initialState
            (handleMultiPageSelection env s spos (s + k + 1) epos ct gid)).db.rows,
          row.annotation_text ≠ "" → row.standardized_date = some d) := by
  constructor
  · intro parse parse2 db fp a d hfield htext hstd hne
    have h1 : dbStdDate parse a = some d := by
      unfold dbStdDate
      rw [if_pos ⟨hfield, htext⟩]
      simp only [hstd]
      rw [if_pos hne]
    have h2 : dbStdDate parse2 a = some d := by
      unfold dbStdDate
      rw [if_pos ⟨hfield, htext⟩]
      simp only [hstd]
      rw [if_pos hne]
    refine ⟨?_, rfl, h1⟩
    unfold dbAddAnnot dbRowOf
    rw [h1, h2]
  · intro parse env fp s k spos epos ct gid fi d hf hsd row hrow htext
    rw [handleMPS_decomp] at hrow
    have hprops := pipeline_rows parse env fp fi (startFrag env s spos ct gid)
      ((List.range' (s + 1) k).map (middleFrag env s gid) ++
        [endFrag env (s + k + 1) epos (k + 2) gid])
      gid initialState rfl rfl rfl (handleMPS_tail_nonstart env s k epos gid)
      rfl row hrow
    apply hprops.2.2.2.2 d ?_ (standardizeDate_some_ne_empty parse ct d hsd)
      hf htext
    show (processDateField parse fi ct).standardized_date = some d
    exact processDateField_std parse fi ct d hf
      (by rw [← standardizeDate_cleanText]; exact hsd)

/-- Instantiation of `C9_supplied_std_verbatim` at concrete inputs,
discharging every hypothesis. -/
theorem C9_supplied_std_verbatim_witness :
    (annotC.field.getD "" ∈ dateFields ∧ annotC.text ≠ ""
      ∧ annotC.standardized_date = some ("2024-03-07")
      ∧ ("2024-03-07" : String) ≠ ""
      ∧ dbAddAnnot parseSimple DB.empty ("doc.pdf") annotC =
          dbAddAnnot (fun _ => none) DB.empty ("doc.pdf") annotC
      ∧ (dbRowOf parseSimple DB.empty.next_id ("doc.pdf") annotC).standardized_date =
          some ("2024-03-07"))
    ∧ (fiC.field ∈ dateFields
      ∧ standardizeDate parseSimple ("2024/03/07") = some ("2024-03-07")
      ∧ ((processFragments parseSimple envC ("doc.pdf") (some fiC) initialState
          (handleMultiPageSelection envC 0 (1, 2) (0 + 1 + 1) (3, 4)
            ("2024/03/07") ("g"))).db.rows.getD 0 default).annotation_text ≠ ""
      ∧ ((processFragments parseSimple envC ("doc.pdf") (some fiC) initialState
          (handleMultiPageSelection envC 0 (1, 2) (0 + 1 + 1) (3, 4)
            ("2024/03/07") ("g"))).db.rows.getD 0 default).standardized_date =
          some ("2024-03-07")) := by
  refine ⟨⟨by decide, by decide, by decide, by decide, ?_, ?_⟩,
    by decide, by decide, by decide, ?_⟩
  · exact (C9_supplied_std_verbatim.1 parseSimple (fun _ => none) DB.empty
      ("doc.pdf") annotC ("2024-03-07") (by decide) (by decide) (by decide)
      (by decide)).1
  · exact (C9_supplied_std_verbatim.1 parseSimple (fun _ => none) DB.empty
      ("doc.pdf") annotC ("2024-03-07") (by decide) (by decide) (by decide)
      (by decide)).2.2
  · exact C9_supplied_std_verbatim.2 parseSimple envC ("doc.pdf") 0 0 (1, 2)
      (3, 4) ("2024/03/07") ("g") fiC ("2024-03-07") (by decide) (by decide)
      _ (by decide) (by decide)

/-- Claim C1 (code bug): cancelling the classification dialog of a
three-page selection does NOT leave the store and collection empty — the
cleanup runs while only the `start` fragment has been delivered, and the
`middle` and `end` fragment signals that arrive afterwards take the
`not show_dialog` path and are persisted anyway.  After the cancelled
operation the store and the collection each hold two records carrying the
cancelled selection's group id, and highlight marks created for that
selection remain on pages 1 and 2. -/
theorem C1_cancel_leaves_residue :
    ((processFragments parseSimple envC ("doc.pdf") none initialState
        (handleMultiPageSelection envC 0 (1, 2) 2 (3, 4) ("ct") ("g1"))).db.rows.filter
        (fun r => r.group_id == "g1")).length = 2
    ∧ ((processFragments parseSimple envC ("doc.pdf") none initialState
        (handleMultiPageSelection envC 0 (1, 2) 2 (3, 4) ("ct") ("g1"))).h.annots.filter
        (fun a => a.group_id == some ("g1"))).length = 2
    ∧ ((processFragments parseSimple envC ("doc.pdf") none initialState
        (handleMultiPageSelection envC 0 (1, 2) 2 (3, 4) ("ct") ("g1"))).h.marks.filter
        (fun m => m.tag == "g1")).map (fun m => m.page) = [1, 2] := by
  decide

theorem basename_append (dir rest : String) :
    basename (dir ++ ("/" ++ rest)) = basename rest := by
  unfold basename basenameChars
  refine congrArg String.mk ?_
  rw [String.data_append, String.data_append]
  rw [show ("/" : String).data = ['/'] from rfl]
  rw [List.foldl_append, List.singleton_append, List.foldl_cons]
  rw [show (if ('/' : Char) = '/' then ([] : List Char)
    else (dir.data.foldl (fun acc c => if c = '/' then [] else acc ++ [c]) []) ++ ['/'])
    = [] from by simp]

/-- Claim C6: the query returns exactly the stored rows whose `file_name`
equals the base name of the given path (a permutation of that filter, with
the membership characterization), sorted by the
`(group_id, multipage_position, id)` key; matching is
directory-independent; and the returned dictionaries are the row
conversions of exactly that sorted list. -/
theorem C6_query_semantics :
    (∀ (db : DB) (fp : String) (r : DbRow),
      r ∈ queryRows db fp ↔ r ∈ db.rows ∧ r.file_name = basename fp)
    ∧ (∀ (db : DB) (fp : String), List.Sorted rowle (queryRows db fp))
    ∧ (∀ (db : DB) (fp : String),
        List.Perm (queryRows db fp)
          (db.rows.filter (fun r => r.file_name == basename fp)))
    ∧ (∀ (db : DB) (dir rest : String),
        queryRows db (dir ++ ("/" ++ rest)) = queryRows db rest)
    ∧ (∀ (db : DB) (fp : String),
        getAnnotsForFile db fp = (queryRows db fp).map loadRow) := by
  refine ⟨?_, ?_, ?_, ?_, ?_⟩
  · intro db fp r
    unfold queryRows
    rw [(List.perm_insertionSort rowle _).mem_iff, List.mem_filter]
    simp
  · intro db fp
    exact List.sorted_insertionSort rowle _
  · intro db fp
    exact List.perm_insertionSort rowle _
  · intro db dir rest
    unfold queryRows
    rw [basename_append]
  · intro db fp
    rfl

theorem eraseIdx_concat {α : Type} (l : List α) (a : α) :
    (l ++ [a]).eraseIdx l.length = l := by
  induction l with
  | nil => rfl
  | cons x xs ih => simp [List.eraseIdx, ih]

theorem findIdx_enum_last (a : Annot) : ∀ (l : List Annot) (n j : Nat),
    (((l ++ [a]).enumFrom n).filter
        (fun q => q.2.page = a.page)).findIdx? (fun q => q.1 = n + l.length) j =
      some (j + ((l ++ [a]).filter (fun x => x.page = a.page)).length - 1) := by
  intro l
  induction l with
  | nil =>
    intro n j
    simp [List.enumFrom, List.findIdx?]
  | cons x xs ih =>
    intro n j
    rw [List.cons_append, List.enumFrom_cons, List.filter_cons]
    have hlen : n + (x :: xs).length = n + 1 + xs.length := by
      rw [List.length_cons]
      omega
    by_cases hx : x.page = a.page
    · rw [if_pos (by simpa using hx)]
      rw [List.findIdx?]
      rw [if_neg (by simp)]
      simp only [hlen]
      rw [ih (n + 1) (j + 1)]
      rw [List.filter_cons, if_pos (by simpa using hx), List.length_cons]
      congr 1
      omega
    · rw [if_neg (by simpa using hx)]
      simp only [hlen]
      rw [ih (n + 1) j]
      rw [List.filter_cons, if_neg (by simpa using hx)]

/-- Claim C8: on every state of the collection (the document's marks being
the ones its annotations created, in order), `remove_last_annotation`
returns the same result and produces the same collection and the same
document marks as `remove_annotation_by_index` at the collection's last
index — including the empty collection, where both fail. -/
theorem C8_removeLast_eq_removeAt (env : Env) (annots : List Annot)
    (lin : String) :
    removeLastAnnot env
        { annots := annots, marks := annots.map markOf,
          last_line_item_number := lin } =
      removeAnnotByIndex env
        { annots := annots, marks := annots.map markOf,
          last_line_item_number := lin }
        ((annots.length : Int) - 1) := by
  rcases List.eq_nil_or_concat annots with rfl | ⟨l, a, hla⟩
  · rfl
  · subst hla
    rw [List.concat_eq_append]
    have hne : l ++ [a] ≠ [] := by simp
    have hcond : ¬(l ++ [a] = [] ∨ (((l ++ [a]).length : Int) - 1) < 0 ∨
        (((l ++ [a]).length : Int) - 1) ≥ ((l ++ [a]).length : Int)) := by
      push_neg
      refine ⟨hne, ?_, ?_⟩ <;>
        · rw [List.length_append, List.length_singleton]
          push_cast
          omega
    unfold removeLastAnnot removeAnnotByIndex
    dsimp only
    rw [if_neg hne, if_neg hcond]
    have hi : ((((l ++ [a]).length : Int)) - 1).toNat = l.length := by
      rw [List.length_append, List.length_singleton]
      push_cast
      omega
    rw [hi]
    have hgetD : (l ++ [a]).getD l.length default = a := by
      simp [List.getD_append_right, List.getD]
    rw [hgetD, List.getLast?_concat]
    rw [show (some a).getD default = a from rfl]
    rw [List.enum_eq_enumFrom]
    have hf := findIdx_enum_last a l 0 0
    simp only [Nat.zero_add] at hf
    rw [hf]
    have hpdf : pdfRemoveAnnot env.page_count ((l ++ [a]).map markOf) a.page
        (some (((l ++ [a]).filter (fun x => x.page = a.page)).length - 1)) =
        pdfRemoveAnnot env.page_count ((l ++ [a]).map markOf) a.page none := by
      unfold pdfRemoveAnnot
      by_cases hpc : a.page ≥ env.page_count
      · rw [if_pos hpc, if_pos hpc]
      · rw [if_neg hpc, if_neg hpc]
        dsimp only
        have hcc : (((l ++ [a]).map markOf).filter (fun m => m.page = a.page)) =
            ((l ++ [a]).filter (fun x => x.page = a.page)).map markOf := by
          rw [filter_map_mk]
          congr 1
        have hlen2 :
            (((l ++ [a]).map markOf).filter (fun m => m.page = a.page)).length =
            ((l ++ [a]).filter (fun x => x.page = a.page)).length := by
          rw [hcc, List.length_map]
        have hmem : a ∈ (l ++ [a]).filter (fun x => x.page = a.page) :=
          List.mem_filter.mpr
            ⟨List.mem_append_right l (List.mem_singleton.mpr rfl), by simp⟩
        have hcpos : 0 < ((l ++ [a]).filter (fun x => x.page = a.page)).length :=
          List.length_pos.mpr (List.ne_nil_of_mem hmem)
        rw [hlen2]
        have hc0 : ¬(((l ++ [a]).filter (fun x => x.page = a.page)).length = 0) := by
          omega
        have hlt : ((l ++ [a]).filter (fun x => x.page = a.page)).length - 1 <
            ((l ++ [a]).filter (fun x => x.page = a.page)).length := by
          omega
        rw [if_neg hc0, if_neg hc0, if_pos hlt]
    rw [hpdf]
    simp only [List.dropLast_concat, eraseIdx_concat]

theorem dbIdsOk_add (parse : String → Option Date) (db : DB) (fp : String)
    (a : Annot) (h : dbIdsOk db) : dbIdsOk (dbAddAnnot parse db fp a).2 := by
  intro row hrow
  rcases List.mem_append.mp hrow with hin | hin
  · exact Nat.lt_succ_of_lt (h row hin)
  · rw [List.mem_singleton] at hin
    subst hin
    exact Nat.lt_succ_self _

theorem insertMany_ok (parse : String → Option Date)
    (ops : List (String × Annot)) : dbIdsOk (insertMany parse ops) := by
  suffices hgen : ∀ (ops : List (String × Annot)) (db : DB), dbIdsOk db →
      dbIdsOk (ops.foldl (fun db op => (dbAddAnnot parse db op.1 op.2).2) db) by
    exact hgen ops DB.empty (fun row hrow => absurd hrow (by simp [DB.empty]))
  intro ops
  induction ops with
  | nil => intro db h; exact h
  | cons op rest ih =>
    intro db h
    rw [List.foldl_cons]
    exact ih _ (dbIdsOk_add parse db op.1 op.2 h)

theorem standardizeDate_some_input_ne (parse : String → Option Date)
    (s x : String) (h : standardizeDate parse s = some x) : s ≠ "" := by
  intro heq
  subst heq
  rw [show standardizeDate parse "" = none from rfl] at h
  exact absurd h (by simp)

theorem handlerMakeAnnot_base (parse : String → Option Date) (n pg : Nat)
    (r : Rect) (text : String) (fi? : Option Classification) (mp : Bool)
    (pos : Option Nat) (mt g : String) :
    (handlerMakeAnnot parse n pg r text fi? mp pos mt g).page = pg
    ∧ (handlerMakeAnnot parse n pg r text fi? mp pos mt g).rect = r
    ∧ (handlerMakeAnnot parse n pg r text fi? mp pos mt g).is_multipage = mp
    ∧ (handlerMakeAnnot parse n pg r text fi? mp pos mt g).multipage_position =
        (if mp then pos else none)
    ∧ (handlerMakeAnnot parse n pg r text fi? mp pos mt g).multipage_type =
        (if mp then some mt else none)
    ∧ (handlerMakeAnnot parse n pg r text fi? mp pos mt g).group_id =
        (if mp then some g else none) := by
  cases fi? with
  | none => exact ⟨rfl, rfl, rfl, rfl, rfl, rfl⟩
  | some fi =>
    simp only [handlerMakeAnnot]
    by_cases hc : fi.field ∈ dateFields ∧ fi.standardized_date = none ∧ text ≠ ""
    · rw [if_pos hc]
      cases standardizeDate parse (cleanTextForDateField text fi.field) with
      | none => exact ⟨rfl, rfl, rfl, rfl, rfl, rfl⟩
      | some d => exact ⟨rfl, rfl, rfl, rfl, rfl, rfl⟩
    · rw [if_neg hc]
      exact ⟨rfl, rfl, rfl, rfl, rfl, rfl⟩

theorem handlerMakeAnnot_date_none (parse : String → Option Date)
    (n pg : Nat) (r : Rect) (T : String) (fi : Classification) (mp : Bool)
    (pos : Option Nat) (mt g : String) (hF : fi.field ∈ dateFields)
    (hnone : fi.standardized_date = none) (hT : T ≠ "") :
    (handlerMakeAnnot parse n pg r T (some fi) mp pos mt g).text =
      cleanTextForDateField T fi.field
    ∧ (handlerMakeAnnot parse n pg r T (some fi) mp pos mt g).standardized_date =
      standardizeDate parse (cleanTextForDateField T fi.field) := by
  simp only [handlerMakeAnnot]
  rw [if_pos ⟨hF, hnone, hT⟩]
  cases hs : standardizeDate parse (cleanTextForDateField T fi.field) with
  | some d => exact ⟨rfl, rfl⟩
  | none => exact ⟨rfl, hnone⟩

theorem handlerMakeAnnot_date_skip (parse : String → Option Date)
    (n pg : Nat) (r : Rect) (T : String) (fi : Classification) (mp : Bool)
    (pos : Option Nat) (mt g : String)
    (hc : ¬(fi.field ∈ dateFields ∧ fi.standardized_date = none ∧ T ≠ "")) :
    handlerMakeAnnot parse n pg r T (some fi) mp pos mt g =
      handlerClassified fi (handlerBaseAnnot n pg r T mp pos mt g) := by
  simp only [handlerMakeAnnot]
  rw [if_neg hc]

theorem handler_std_canonical (parse : String → Option Date) (n pg : Nat)
    (r : Rect) (T : String) (fi : Classification) (c : String)
    (hf : fi.field ∈ dateFields) (hnone : fi.standardized_date = none)
    (hsd : standardizeDate parse T = some c) :
    (handlerMakeAnnot parse n pg r T (some fi) false none "" "").standardized_date =
      some c := by
  have hT : T ≠ "" := standardizeDate_some_input_ne parse T c hsd
  obtain ⟨_, hstd⟩ :=
    handlerMakeAnnot_date_none parse n pg r T fi false none "" "" hf hnone hT
  rw [hstd]
  rw [show cleanTextForDateField T fi.field = cleanText T from by
    unfold cleanTextForDateField; rw [if_pos hf]]
  rw [← standardizeDate_cleanText]
  exact hsd

theorem dbStdDate_handler_eq (parse : String → Option Date) (n pg : Nat)
    (r : Rect) (T : String) (fi : Classification)
    (hnone : fi.standardized_date = none) :
    dbStdDate parse (handlerMakeAnnot parse n pg r T (some fi) false none "" "") =
      (handlerMakeAnnot parse n pg r T (some fi) false none "" "").standardized_date := by
  have hfA : (handlerMakeAnnot parse n pg r T (some fi) false none "" "").field =
      some fi.field := (handlerMakeAnnot_fields parse n pg r T fi false none "" "").2.1
  by_cases hF : fi.field ∈ dateFields
  · by_cases hT : T = ""
    · rw [handlerMakeAnnot_date_skip parse n pg r T fi false none "" ""
        (fun h => h.2.2 hT)]
      unfold dbStdDate
      rw [if_neg (fun h => h.2 hT)]
      exact hnone.symm
    · obtain ⟨htext, hstd⟩ :=
        handlerMakeAnnot_date_none parse n pg r T fi false none "" "" hF hnone hT
      unfold dbStdDate
      rw [hfA, htext, hstd]
      rw [show (some fi.field).getD "" = fi.field from rfl]
      cases hs : standardizeDate parse (cleanTextForDateField T fi.field) with
      | some c =>
        rw [if_pos ⟨hF, standardizeDate_some_input_ne parse _ c hs⟩]
        show (if c ≠ "" then some c else some c) = some c
        rw [if_pos (standardizeDate_some_ne_empty parse _ c hs)]
      | none =>
        by_cases hclean : cleanTextForDateField T fi.field = ""
        · rw [if_neg (fun h => h.2 hclean)]
        · rw [if_pos ⟨hF, hclean⟩]
  · rw [handlerMakeAnnot_date_skip parse n pg r T fi false none "" ""
      (fun h => hF h.1)]
    unfold dbStdDate
    rw [show (handlerClassified fi (handlerBaseAnnot n pg r T false none "" "")).field.getD "" =
      fi.field from rfl]
    rw [if_neg (fun h => hF h.1)]
    exact hnone.symm

/-- Claim C3: inserting a freshly created single-page annotation (field
`F`, raw text `T`, classified by the dialog) into any store built by prior
inserts and then querying the same file returns exactly one record with
the newly assigned id, equal to the annotation in page, rect, (cleaned)
text, type, field, line-item number and single-page status, with
`standardized_date` preserved — and populated with the canonical value
whenever `F` is date-bearing and `T` normalizes. -/
theorem C3_roundtrip (parse : String → Option Date)
    (prior : List (String × Annot)) (fp : String) (n pg : Nat) (r : Rect)
    (T typ F lin : String) :
    (dbAddAnnot parse (insertMany parse prior) fp
        (handlerMakeAnnot parse n pg r T
          (some { type_ := typ, field := F, line_item_number := lin })
          false none "" "")).1 = some (insertMany parse prior).next_id
    ∧ ∃ rec,
      (getAnnotsForFile (dbAddAnnot parse (insertMany parse prior) fp
          (handlerMakeAnnot parse n pg r T
            (some { type_ := typ, field := F, line_item_number := lin })
            false none "" "")).2 fp).filter
        (fun x => x.id == (insertMany parse prior).next_id) = [rec]
      ∧ rec.page = pg
      ∧ rec.rect = r
      ∧ rec.text = (handlerMakeAnnot parse n pg r T
          (some { type_ := typ, field := F, line_item_number := lin })
          false none "" "").text
      ∧ rec.type_ = typ
      ∧ rec.field = F
      ∧ rec.line_item_number = lin
      ∧ rec.file_name = basename fp
      ∧ rec.is_multipage = false
      ∧ rec.multipage_position = none
      ∧ rec.multipage_type = none
      ∧ rec.group_id = none
      ∧ rec.standardized_date = (handlerMakeAnnot parse n pg r T
          (some { type_ := typ, field := F, line_item_number := lin })
          false none "" "").standardized_date
      ∧ (F ∈ dateFields → ∀ c, standardizeDate parse T = some c →
          rec.standardized_date = some c) := by
  set A := handlerMakeAnnot parse n pg r T
    (some { type_ := typ, field := F, line_item_number := lin })
    false none "" "" with hA
  set db := insertMany parse prior with hdb
  have hbase := handlerMakeAnnot_base parse n pg r T
    (some { type_ := typ, field := F, line_item_number := lin })
    false none "" ""
  have hflds := handlerMakeAnnot_fields parse n pg r T
    { type_ := typ, field := F, line_item_number := lin } false none "" ""
  rw [← hA] at hbase hflds
  constructor
  · rfl
  · refine ⟨loadRow (dbRowOf parse db.next_id fp A), ?_, ?_, ?_, rfl, ?_, ?_,
      ?_, rfl, ?_, ?_, ?_, ?_, ?_, ?_⟩
    · unfold getAnnotsForFile
      rw [filter_map_mk]
      suffices hsuff : (queryRows (dbAddAnnot parse db fp A).2 fp).filter
          (fun row => (loadRow row).id == db.next_id) =
          [dbRowOf parse db.next_id fp A] by
        rw [hsuff]
        rfl
      have hperm : List.Perm (queryRows (dbAddAnnot parse db fp A).2 fp)
          ((dbAddAnnot parse db fp A).2.rows.filter
            (fun row => row.file_name == basename fp)) :=
        List.perm_insertionSort rowle _
      have hpermf := hperm.filter (fun row => (loadRow row).id == db.next_id)
      have hrows : (dbAddAnnot parse db fp A).2.rows =
          db.rows ++ [dbRowOf parse db.next_id fp A] := rfl
      have hfileP : ((dbRowOf parse db.next_id fp A).file_name ==
          basename fp) = true := by
        show (basename fp == basename fp) = true
        simp
      have hrhs : ((dbAddAnnot parse db fp A).2.rows.filter
          (fun row => row.file_name == basename fp)) =
          db.rows.filter (fun row => row.file_name == basename fp) ++
            [dbRowOf parse db.next_id fp A] := by
        rw [hrows, List.filter_append]
        congr 1
        rw [List.filter_cons, if_pos hfileP, List.filter_nil]
      have hok : dbIdsOk db := by
        rw [hdb]
        exact insertMany_ok parse prior
      have hidOld : ∀ row ∈ db.rows.filter
          (fun row => row.file_name == basename fp),
          ((loadRow row).id == db.next_id) = false := by
        intro row hrow
        have hlt := hok row (List.mem_of_mem_filter hrow)
        show (row.id == db.next_id) = false
        simp only [beq_eq_false_iff_ne]
        omega
      have hfilterRHS : ((db.rows.filter
          (fun row => row.file_name == basename fp)) ++
            [dbRowOf parse db.next_id fp A]).filter
          (fun row => (loadRow row).id == db.next_id) =
          [dbRowOf parse db.next_id fp A] := by
        rw [List.filter_append, filter_eq_nil_of_all _ _ hidOld,
          List.nil_append, List.filter_cons]
        rw [if_pos (show ((loadRow (dbRowOf parse db.next_id fp A)).id ==
          db.next_id) = true from by
            show (db.next_id == db.next_id) = true
            simp)]
        rw [List.filter_nil]
      rw [hrhs, hfilterRHS] at hpermf
      exact List.perm_singleton.mp hpermf
    · exact hbase.1
    · exact hbase.2.1
    · show A.type_.getD "" = typ
      rw [hflds.1]
      rfl
    · show A.field.getD "" = F
      rw [hflds.2.1]
      rfl
    · show A.line_item_number.getD "" = lin
      rw [hflds.2.2.1]
      rfl
    · exact hbase.2.2.1
    · show (if (dbRowOf parse db.next_id fp A).is_multipage then
        (dbRowOf parse db.next_id fp A).multipage_position else none) = none
      rw [show (dbRowOf parse db.next_id fp A).is_multipage = A.is_multipage
        from rfl, hbase.2.2.1]
      rfl
    · show (if (dbRowOf parse db.next_id fp A).is_multipage then
        some (dbRowOf parse db.next_id fp A).multipage_type else none) = none
      rw [show (dbRowOf parse db.next_id fp A).is_multipage = A.is_multipage
        from rfl, hbase.2.2.1]
      rfl
    · show (if (dbRowOf parse db.next_id fp A).is_multipage then
        some (dbRowOf parse db.next_id fp A).group_id else none) = none
      rw [show (dbRowOf parse db.next_id fp A).is_multipage = A.is_multipage
        from rfl, hbase.2.2.1]
      rfl
    · show dbStdDate parse A = A.standardized_date
      rw [hA]
      exact dbStdDate_handler_eq parse n pg r T
        { type_ := typ, field := F, line_item_number := lin } rfl
    · intro hf c hc
      show dbStdDate parse A = some c
      rw [hA]
      rw [dbStdDate_handler_eq parse n pg r T
        { type_ := typ, field := F, line_item_number := lin } rfl]
      exact handler_std_canonical parse n pg r T
        { type_ := typ, field := F, line_item_number := lin } c hf rfl hc

end PdfData
